import Mathlib

/-!
Verification development for the "daddys_playground" quiz-game repository.

The development shallowly embeds the core logic of the repository:

* the orchestrator in `App.tsx` (player records, level-up logic, turn
  switching, game routing);
* the problem and option generators of `MultiplicationGame.tsx` /
  `WordMathGame.tsx` (randomness is modelled by an explicit stream of draws);
* the per-round session state machine shared by the four mini-games
  (timer countdown, answer locking, scoring, completion scheduling,
  mount/unmount lifecycle), modelled after `MultiplicationGame.tsx`;
* the scoring computation, including an exact model of the IEEE-754
  double-precision rounding that the JavaScript source performs
  (the literal `0.3` is not exactly representable in binary).

JavaScript numbers are embedded as `ℤ`/`ℕ` where the source only ever
holds integers, and as `ℚ` together with an explicit binary64 rounding
function `fl` where fractional literals (`0.5`, `0.3`) take part.
-/

namespace DaddysPlayground

/-! ### Orchestrator data model (`App.tsx`) -/

/-- `Player` record from `App.tsx` lines 8-15. -/
structure Player where
  name : String
  age : ℕ
  grade : String
  score : ℤ
  level : ℕ
  correctAnswers : ℕ
  deriving DecidableEq

/-- `GameState` union type from `App.tsx` line 17. -/
inductive GameState where
  | selection | opposites | multiplication | animals | wordmath | results
  deriving DecidableEq

/-- `GameSettings` record from `App.tsx` lines 19-23. -/
structure GameSettings where
  timerDuration : ℕ
  totalRounds : ℕ
  difficulty : ℕ
  deriving DecidableEq

/-- The orchestrator state held by the `App` component: the two players,
the active player index (0 or 1), rounds played, the settings and the
current `gameState`. -/
structure AppState where
  players : Player × Player
  currentPlayerIndex : ℕ
  roundsPlayed : ℕ
  settings : GameSettings
  gameState : GameState
  deriving DecidableEq

/-- `players[currentPlayerIndex]` (index 0 selects the first player,
anything else the second, matching the two-element array). -/
def currentPlayer (s : AppState) : Player :=
  if s.currentPlayerIndex = 0 then s.players.1 else s.players.2

/-- `checkForLevelUp` (`App.tsx` lines 62-83): level up when
`correctAnswers >= level * 5` and `level < 10`.  The `setPlayers` updater
mutates the player object in place, so by the time this check reads the
player, the `correctAnswers` increment performed by `updatePlayerScore` is
visible; the embedding therefore applies the check to the updated player. -/
def checkForLevelUp (p : Player) : Player :=
  if p.level * 5 ≤ p.correctAnswers ∧ p.level < 10 then
    { p with level := p.level + 1 }
  else p

/-- `updatePlayerScore` (`App.tsx` lines 85-100): add the reported points to
the score, bump `correctAnswers` on a correct round, then run the level-up
check (only on a correct round). -/
def updatePlayerScore (p : Player) (points : ℤ) (isCorrect : Bool) : Player :=
  let p1 : Player :=
    { p with
      score := p.score + points
      correctAnswers := p.correctAnswers + (if isCorrect then 1 else 0) }
  if isCorrect then checkForLevelUp p1 else p1

/-- Apply `updatePlayerScore` to the active player inside the orchestrator
state (the `setPlayers` call sites index with `currentPlayerIndex`). -/
def applyScoreUpdate (s : AppState) (points : ℤ) (isCorrect : Bool) : AppState :=
  if s.currentPlayerIndex = 0 then
    { s with players := (updatePlayerScore s.players.1 points isCorrect, s.players.2) }
  else
    { s with players := (s.players.1, updatePlayerScore s.players.2 points isCorrect) }

/-- `nextTurn` (`App.tsx` lines 102-109): swap the player index, increment
`roundsPlayed`, and end the match once `roundsPlayed + 1 >= totalRounds`.
Note that `nextTurn` does not touch `gameState` otherwise: the mini-game
type chosen at `startGame` stays in force. -/
def nextTurn (s : AppState) : AppState :=
  { s with
    currentPlayerIndex := if s.currentPlayerIndex = 0 then 1 else 0
    roundsPlayed := s.roundsPlayed + 1
    gameState :=
      if s.settings.totalRounds ≤ s.roundsPlayed + 1 then GameState.results
      else s.gameState }

/-- The `onComplete` handler passed to `GamesContainer` (`App.tsx` lines
240-243): `updatePlayerScore(points, isCorrect); nextTurn();`. -/
def completeRound (s : AppState) (points : ℤ) (isCorrect : Bool) : AppState :=
  nextTurn (applyScoreUpdate s points isCorrect)

/-- `selectGameForPlayer` (`App.tsx` lines 127-137).  The boolean `r`
models `Math.random() > 0.5`. -/
def selectGameForPlayer (p : Player) (r : Bool) : GameState :=
  if p.age < 6 then (if r then GameState.opposites else GameState.animals)
  else (if r then GameState.multiplication else GameState.wordmath)

/-- `startGame` (`App.tsx` lines 111-125).  `prevIndex` is the value of
`currentPlayerIndex` before the `setCurrentPlayerIndex` call: the source
calls `selectGameForPlayer(customPlayers[currentPlayerIndex])` with the
stale index, which the embedding keeps faithfully. -/
def startGame (prevIndex : ℕ) (ps : Player × Player) (settings : GameSettings)
    (r : Bool) : AppState :=
  { players := ps
    currentPlayerIndex := if ps.1.age ≤ ps.2.age then 0 else 1
    roundsPlayed := 0
    settings := settings
    gameState := selectGameForPlayer (if prevIndex = 0 then ps.1 else ps.2) r }

/-- The difficulty argument `GamesContainer` passes to every mini-game is
`player.level` (`GamesContainer.tsx` lines 77-127, `difficulty={player.level}`). -/
def difficultyPassed (s : AppState) : ℕ :=
  (currentPlayer s).level

/-- The two mini-games valid for an age bracket, per
`selectGameForPlayer`: under 6 years plays opposites/animals, otherwise
multiplication/word-math. -/
def gamesForAge (age : ℕ) : List GameState :=
  if age < 6 then [GameState.opposites, GameState.animals]
  else [GameState.multiplication, GameState.wordmath]

/-- The initial two-player roster hard-coded in `App.tsx` lines 28-31. -/
def defaultPlayers : Player × Player :=
  (⟨"Alex (Pre-K)", 5, "Pre-K", 0, 1, 0⟩, ⟨"Player 2", 7, "1st Grade", 0, 1, 0⟩)

/-! ### Problem and option generators (`MultiplicationGame.tsx` lines 13-47,
identical in `WordMathGame.tsx` lines 417-478) -/

/-- A multiplication problem.  `generateProblem` fills `answer` with
`num1 * num2`. -/
structure Problem where
  num1 : ℕ
  num2 : ℕ
  answer : ℤ
  deriving DecidableEq

/-- `generateProblem` (`MultiplicationGame.tsx` lines 13-26).  The two
`Math.floor(Math.random() * maxNum)` draws are modelled by arbitrary
naturals `r1 r2` reduced modulo `maxNum`, which ranges over exactly the
values `0 .. maxNum - 1` the source can produce. -/
def generateProblem (difficulty : ℕ) (r1 r2 : ℕ) : Problem :=
  let maxNum := min 10 (3 + difficulty)
  let num1 := r1 % maxNum + 1
  let num2 := r2 % maxNum + 1
  { num1 := num1, num2 := num2, answer := (num1 : ℤ) * (num2 : ℤ) }

/-- One iteration's worth of randomness inside the `generateOptions` loop:
`off` models `Math.floor(Math.random() * (7 - Math.min(difficulty, 5)))`
(so the offset actually used is `off + 1`), and `pos` models
`Math.random() > 0.5` (the random sign). -/
structure Draw where
  off : ℕ
  pos : Bool
  deriving DecidableEq

/-- The size of the offset pool: `7 - Math.min(difficulty, 5)`. -/
def offsetRange (difficulty : ℕ) : ℕ := 7 - min difficulty 5

/-- The candidate wrong answer produced from one draw:
`correctAnswer + offset * sign` with `offset = off + 1`. -/
def drawValue (correctAnswer : ℤ) (dr : Draw) : ℤ :=
  if dr.pos then correctAnswer + ((dr.off : ℤ) + 1)
  else correctAnswer - ((dr.off : ℤ) + 1)

/-- One iteration of the `while (options.length < 4)` loop body
(`MultiplicationGame.tsx` lines 32-43): push the candidate when it is
positive and not already present. -/
def optionsStep (correctAnswer : ℤ) (options : List ℤ) (dr : Draw) : List ℤ :=
  let wrongAnswer := drawValue correctAnswer dr
  if 0 < wrongAnswer ∧ wrongAnswer ∉ options then options ++ [wrongAnswer]
  else options

/-- The collection loop of `generateOptions`, driven by an explicit finite
stream of draws.  `some opts` is the value the loop returns; `none` means
the supplied stream was exhausted with fewer than 4 options collected
(the source loop would keep drawing). -/
def collectOptions (correctAnswer : ℤ) : List ℤ → List Draw → Option (List ℤ)
  | options, [] => if 4 ≤ options.length then some options else none
  | options, dr :: rest =>
      if 4 ≤ options.length then some options
      else collectOptions correctAnswer (optionsStep correctAnswer options dr) rest

/-- The finite set of candidate values an in-range draw can ever produce
and the loop can ever accept (positive values of `drawValue` over the
offset pool).  Every element differs from `correctAnswer` since the
offset is at least 1. -/
def acceptableDecoys (correctAnswer : ℤ) (difficulty : ℕ) : Finset ℤ :=
  ((Finset.range (offsetRange difficulty) ×ˢ (Finset.univ : Finset Bool)).image
    fun p => drawValue correctAnswer ⟨p.1, p.2⟩).filter fun v => 0 < v

/-! ### Exact model of IEEE-754 binary64 arithmetic for the scoring formula

The scoring lines (`Math.floor(timeLeft * (difficulty * 0.5))` and
`Math.floor(timeLeft * (difficulty * 0.3))`) run in JavaScript doubles.
`fl` rounds a positive rational to the nearest value with a 53-bit
significand (round-to-nearest, ties-to-even), which agrees with binary64
on the whole normal range used here; `Math.floor` on the resulting double
is `Int.floor` of the rational it denotes. -/

/-- Round a rational to an integer, round-half-to-even. -/
def roundHalfEven (q : ℚ) : ℤ :=
  if q - ⌊q⌋ < 1 / 2 then ⌊q⌋
  else if 1 / 2 < q - ⌊q⌋ then ⌊q⌋ + 1
  else if ⌊q⌋ % 2 = 0 then ⌊q⌋ else ⌊q⌋ + 1

/-- Fuel-based binary logarithm on `ℕ` (the fuel makes the recursion
structural, so the kernel can evaluate it). -/
def plog2 : ℕ → ℕ → ℕ
  | 0, _ => 0
  | fuel + 1, n => if n ≤ 1 then 0 else plog2 fuel (n / 2) + 1

/-- `natLog2 n` is `⌊log₂ n⌋` for `n ≥ 1`. -/
def natLog2 (n : ℕ) : ℕ := plog2 n n

/-- Binade of a positive rational: the unique `e` with `2^e ≤ x < 2^(e+1)`,
computed from the bit lengths of numerator and denominator. -/
def qlog2 (x : ℚ) : ℤ :=
  if x < 2 ^ ((natLog2 x.num.toNat : ℤ) - (natLog2 x.den : ℤ)) then
    (natLog2 x.num.toNat : ℤ) - (natLog2 x.den : ℤ) - 1
  else (natLog2 x.num.toNat : ℤ) - (natLog2 x.den : ℤ)

/-- Round a positive rational to the nearest binary64 value (53-bit
significand, ties to even); `0` for non-positive input (not used). -/
def fl (x : ℚ) : ℚ :=
  if x ≤ 0 then 0
  else (roundHalfEven (x / 2 ^ (qlog2 x - 52)) : ℚ) * 2 ^ (qlog2 x - 52)

/-- The double denoted by the JavaScript literal `0.5` (exactly 1/2). -/
def fl05 : ℚ := fl (1 / 2)

/-- The double denoted by the JavaScript literal `0.3`
(5404319552844595 / 2^54, slightly below 3/10). -/
def fl03 : ℚ := fl (3 / 10)

/-- `correct ? Math.max(1, Math.floor(timeLeft * (difficulty * 0.5))) : 0`
(`MultiplicationGame.tsx` line 163, `WordMathGame` line 594), with every
multiplication rounded to binary64. -/
def pointsEarnedMult (timeLeft difficulty : ℕ) (correct : Bool) : ℤ :=
  if correct then
    max 1 ⌊fl ((timeLeft : ℚ) * fl ((difficulty : ℚ) * fl05))⌋
  else 0

/-- `correct ? Math.max(1, Math.floor(timeLeft * (difficulty * 0.3))) : 0`
(`AnimalGame.tsx` line 276, `OppositesGame` line 919), with every
multiplication rounded to binary64. -/
def pointsEarnedAnimal (timeLeft difficulty : ℕ) (correct : Bool) : ℤ :=
  if correct then
    max 1 ⌊fl ((timeLeft : ℚ) * fl ((difficulty : ℚ) * fl03))⌋
  else 0

/-! ### Round Session Controller (`MultiplicationGame.tsx` lines 49-210)

The per-mount component state plus the two timers it owns.  `tickPending`
models a scheduled 1-second `setTimeout` held in `timerRef`;
`completionPending` models the scheduled 3-second completion `setTimeout`
held in `completionRef` together with the `(points, isCorrect)` payload it
would deliver; `completedReports` records the actual `onComplete`
invocations; `mounted` models `mountedRef.current`. -/
structure GameSession where
  problem : Option Problem
  options : List ℤ
  selectedOption : Option ℤ
  isCorrect : Option Bool
  timeLeft : ℕ
  score : ℤ
  timerDuration : ℕ
  difficulty : ℕ
  gameInitialized : Bool
  isTransitioning : Bool
  imageError : Bool
  mounted : Bool
  tickPending : Bool
  completionPending : Option (ℤ × Bool)
  completedReports : List (ℤ × Bool)
  deriving DecidableEq

/-- The guard of the countdown effect (`MultiplicationGame.tsx` line 109):
a 1-second tick is (re)scheduled exactly when the session is initialized,
time remains, nothing is selected, no transition is underway and a
problem exists. -/
def schedTickFlag (st : GameSession) : Bool :=
  st.gameInitialized && decide (0 < st.timeLeft) && st.selectedOption.isNone &&
    !st.isTransitioning && st.problem.isSome

/-- Re-run the countdown effect after a render: recompute `tickPending`. -/
def runTickEffect (st : GameSession) : GameSession :=
  { st with tickPending := schedTickFlag st }

/-- Body of the timeout-completion effect (`MultiplicationGame.tsx` lines
133-146), run when its guard (time exhausted, nothing selected, not
transitioning, problem present) holds: pre-select the correct answer, mark
incorrect, set the transitioning flag and schedule the completion callback
with the accumulated score and `false`. -/
def lockTimeout (st : GameSession) : GameSession :=
  { st with
    selectedOption := st.problem.map Problem.answer
    isCorrect := some false
    isTransitioning := true
    completionPending := some (st.score, false) }

/-- One firing of the 1-second tick timer, followed by the effects the
resulting render runs: the callback decrements `timeLeft` (guarded by
`mountedRef`), the timeout-completion effect locks the session when the
counter reached zero, and the countdown effect reschedules the next tick
while the session is still active. -/
def tickStep (st : GameSession) : GameSession :=
  if st.mounted = true ∧ st.tickPending = true then
    let st1 := { st with timeLeft := st.timeLeft - 1, tickPending := false }
    let st2 :=
      if st1.timeLeft = 0 ∧ st1.selectedOption = none ∧
          st1.isTransitioning = false ∧ st1.problem.isSome = true then
        lockTimeout st1
      else st1
    runTickEffect st2
  else st

/-- `handleOptionSelect` (`MultiplicationGame.tsx` lines 153-179): ignore
the click when an option is already selected, the game is not initialized,
a transition is underway or no problem exists; otherwise lock in the
selection, compute the points once, and schedule the completion callback.
The re-rendered countdown effect's cleanup clears the pending tick. -/
def handleOptionSelect (st : GameSession) (option : ℤ) : GameSession :=
  if st.selectedOption.isSome = true ∨ st.gameInitialized = false ∨
      st.isTransitioning = true ∨ st.problem = none then st
  else
    match st.problem with
    | none => st
    | some pb =>
        let correct : Bool := option = pb.answer
        let pointsEarned := pointsEarnedMult st.timeLeft st.difficulty correct
        let newScore := if correct then st.score + pointsEarned else st.score
        { st with
          isTransitioning := true
          selectedOption := some option
          isCorrect := some correct
          score := newScore
          tickPending := false
          completionPending := some (newScore, correct) }

/-- A freshly mounted session, before `initializeGame` runs
(`MultiplicationGame.tsx` lines 54-64): every `useState` initial value. -/
def mkFreshSession (timerDuration difficulty : ℕ) : GameSession :=
  { problem := none
    options := []
    selectedOption := none
    isCorrect := none
    timeLeft := timerDuration
    score := 0
    timerDuration := timerDuration
    difficulty := difficulty
    gameInitialized := false
    isTransitioning := false
    imageError := false
    mounted := true
    tickPending := false
    completionPending := none
    completedReports := [] }

/-- Where `initializeGame` can fail: `ok` is the normal path with the
generated problem and options; `throwInProblem` models `generateProblem`
throwing (so `setProblem` was never called); `throwInOptions` models
`generateOptions` throwing after `setProblem(newProblem)` succeeded. -/
inductive InitOutcome where
  | ok (pb : Problem) (opts : List ℤ)
  | throwInProblem
  | throwInOptions (pb : Problem)

/-- `initializeGame` (`MultiplicationGame.tsx` lines 69-93) followed by the
countdown effect of the resulting render.  On the happy path all state is
reset and `gameInitialized` becomes true; in the catch block only
`setOptions([4, 6, 8, 10])`, `setImageError(true)` and
`setGameInitialized(true)` run. -/
def initGame (st : GameSession) (out : InitOutcome) : GameSession :=
  runTickEffect <|
    match out with
    | InitOutcome.ok pb opts =>
        { st with
          problem := some pb
          options := opts
          selectedOption := none
          isCorrect := none
          timeLeft := st.timerDuration
          imageError := false
          isTransitioning := false
          gameInitialized := true }
    | InitOutcome.throwInProblem =>
        { st with options := [4, 6, 8, 10], imageError := true, gameInitialized := true }
    | InitOutcome.throwInOptions pb =>
        { st with
          problem := some pb
          options := [4, 6, 8, 10]
          imageError := true
          gameInitialized := true }

/-- The render guard of `MultiplicationGame.tsx` line 202: the component
shows the "Loading game..." screen while `!gameInitialized || !problem`. -/
def rendersLoading (st : GameSession) : Bool :=
  !st.gameInitialized || st.problem.isNone

/-- A session in the `Active` state: question rendered (not the loading
screen), timer pending, clock at `timeLeft`. -/
def mkActiveAt (pb : Problem) (opts : List ℤ) (timerDuration difficulty t : ℕ) :
    GameSession :=
  { mkFreshSession timerDuration difficulty with
    problem := some pb
    options := opts
    timeLeft := t
    gameInitialized := true
    tickPending := decide (0 < t) }

/-- The session state right after a successful mount with timer `T`:
`initGame` on a fresh session with the generated problem and options. -/
def mkActiveSession (pb : Problem) (opts : List ℤ) (timerDuration difficulty : ℕ) :
    GameSession :=
  mkActiveAt pb opts timerDuration difficulty timerDuration

/-- The locked state the session reaches when the timer runs out with no
selection: correct answer pre-selected, marked incorrect, transition
underway, no tick pending, completion scheduled with the (zero) score. -/
def lockedSession (pb : Problem) (opts : List ℤ) (timerDuration difficulty : ℕ) :
    GameSession :=
  { mkActiveAt pb opts timerDuration difficulty 0 with
    selectedOption := some pb.answer
    isCorrect := some false
    isTransitioning := true
    tickPending := false
    completionPending := some (0, false) }

/-- The asynchronous events a live session can receive: a click on an
option button, a firing of the 1-second tick timer, a firing of the
3-second completion timer, and teardown of the component. -/
inductive SEvent where
  | selectOpt (option : ℤ)
  | tickFire
  | completionFire
  | unmountEv

/-- One firing of the 3-second completion timer: the callback body is
`if (mountedRef.current) onComplete(newScore, correct)`
(`MultiplicationGame.tsx` lines 174-178). -/
def fireCompletion (st : GameSession) : GameSession :=
  match st.completionPending with
  | some payload =>
      if st.mounted = true then
        { st with
          completedReports := st.completedReports ++ [payload]
          completionPending := none }
      else st
  | none => st

/-- The event step of a session.  Clicks only arrive while the component
is mounted (an unmounted component has no DOM); timer firings can race
teardown and are guarded inside.  Unmount runs the cleanup of
`MultiplicationGame.tsx` lines 100-104: set `mountedRef.current = false`
and `clearTimeout` both timers. -/
def stepEv (st : GameSession) : SEvent → GameSession
  | SEvent.selectOpt o => if st.mounted = true then handleOptionSelect st o else st
  | SEvent.tickFire => tickStep st
  | SEvent.completionFire => fireCompletion st
  | SEvent.unmountEv =>
      { st with mounted := false, tickPending := false, completionPending := none }

/-! ### Lemmas about the binary64 rounding model -/

theorem plog2_bounds :
    ∀ fuel n : ℕ, 1 ≤ n → n ≤ fuel →
      2 ^ plog2 fuel n ≤ n ∧ n < 2 ^ (plog2 fuel n + 1) := by
  intro fuel
  induction fuel with
  | zero => intro n h1 h2; omega
  | succ fuel ih =>
      intro n h1 h2
      rw [plog2]
      by_cases hn : n ≤ 1
      · rw [if_pos hn]
        have : n = 1 := by omega
        subst this
        norm_num

      · rw [if_neg hn]
        have h3 : 1 ≤ n / 2 := by omega
        have h4 : n / 2 ≤ fuel := by omega
        obtain ⟨l, u⟩ := ih (n / 2) h3 h4
        rw [pow_succ] at u ⊢
        rw [pow_succ]
        omega

theorem natLog2_bounds (n : ℕ) (h : 1 ≤ n) :
    2 ^ natLog2 n ≤ n ∧ n < 2 ^ (natLog2 n + 1) :=
  plog2_bounds n n h le_rfl

theorem qlog2_spec (x : ℚ) (hx : 0 < x) :
    (2 : ℚ) ^ qlog2 x ≤ x ∧ x < 2 ^ (qlog2 x + 1) := by
  have hnum : 0 < x.num := Rat.num_pos.2 hx
  have hp1 : 1 ≤ x.num.toNat := by omega
  have hq1 : 1 ≤ x.den := x.den_pos
  obtain ⟨pl, pu⟩ := natLog2_bounds x.num.toNat hp1
  obtain ⟨ql, qu⟩ := natLog2_bounds x.den hq1
  set a := natLog2 x.num.toNat with ha
  set b := natLog2 x.den with hb
  have hdenpos : (0 : ℚ) < (x.den : ℚ) := by exact_mod_cast x.den_pos
  have hcast : ((x.num.toNat : ℤ)) = x.num := Int.toNat_of_nonneg hnum.le
  have hcastQ : ((x.num.toNat : ℚ)) = ((x.num : ℚ)) := by exact_mod_cast hcast
  have hxeq : x = ((x.num.toNat : ℚ)) / ((x.den : ℚ)) := by
    rw [hcastQ, Rat.num_div_den]
  have plQ : (2 : ℚ) ^ (a : ℕ) ≤ (x.num.toNat : ℚ) := by exact_mod_cast pl
  have puQ : (x.num.toNat : ℚ) < 2 ^ ((a + 1 : ℕ)) := by exact_mod_cast pu
  have qlQ : (2 : ℚ) ^ (b : ℕ) ≤ (x.den : ℚ) := by exact_mod_cast ql
  have quQ : (x.den : ℚ) < 2 ^ ((b + 1 : ℕ)) := by exact_mod_cast qu
  have hpQ : (0 : ℚ) < (x.num.toNat : ℚ) := by exact_mod_cast (by omega : 0 < x.num.toNat)
  have hlow : (2 : ℚ) ^ ((a : ℤ) - b - 1) < x := by
    rw [hxeq, lt_div_iff hdenpos]
    have hrw : (2 : ℚ) ^ ((a : ℤ) - b - 1) = 2 ^ (a : ℕ) / 2 ^ ((b + 1 : ℕ)) := by
      rw [eq_div_iff (by positivity), ← zpow_natCast (2 : ℚ) (b + 1),
        ← zpow_natCast (2 : ℚ) a, ← zpow_add₀ (by norm_num : (2 : ℚ) ≠ 0)]
      congr 1
      push_cast
      ring
    rw [hrw, div_mul_eq_mul_div, div_lt_iff (by positivity)]
    calc (2 : ℚ) ^ (a : ℕ) * (x.den : ℚ) ≤ (x.num.toNat : ℚ) * (x.den : ℚ) :=
          mul_le_mul_of_nonneg_right plQ hdenpos.le
      _ < (x.num.toNat : ℚ) * 2 ^ ((b + 1 : ℕ)) := mul_lt_mul_of_pos_left quQ hpQ
  have hhigh : x < (2 : ℚ) ^ ((a : ℤ) - b + 1) := by
    rw [hxeq, div_lt_iff hdenpos]
    have hrw : (2 : ℚ) ^ ((a : ℤ) - b + 1) = 2 ^ ((a + 1 : ℕ)) / 2 ^ (b : ℕ) := by
      rw [eq_div_iff (by positivity), ← zpow_natCast (2 : ℚ) b,
        ← zpow_natCast (2 : ℚ) (a + 1), ← zpow_add₀ (by norm_num : (2 : ℚ) ≠ 0)]
      congr 1
      push_cast
      ring
    rw [hrw, div_mul_eq_mul_div, lt_div_iff (by positivity)]
    calc (x.num.toNat : ℚ) * 2 ^ (b : ℕ) < 2 ^ ((a + 1 : ℕ)) * 2 ^ (b : ℕ) :=
          mul_lt_mul_of_pos_right puQ (by positivity)
      _ ≤ 2 ^ ((a + 1 : ℕ)) * (x.den : ℚ) := mul_le_mul_of_nonneg_left qlQ (by positivity)
  rw [qlog2]
  by_cases hc : x < 2 ^ ((a : ℤ) - b)
  · rw [if_pos hc]
    exact ⟨hlow.le, by rw [show (a : ℤ) - b - 1 + 1 = (a : ℤ) - b by ring]; exact hc⟩
  · rw [if_neg hc]
    exact ⟨not_lt.1 hc, hhigh⟩

theorem qlog2_eq_of {x : ℚ} {e : ℤ} (hx : 0 < x) (h1 : (2 : ℚ) ^ e ≤ x)
    (h2 : x < 2 ^ (e + 1)) : qlog2 x = e := by
  obtain ⟨l, u⟩ := qlog2_spec x hx
  by_contra hne
  rcases lt_or_gt_of_ne hne with hlt | hgt
  · have : (2 : ℚ) ^ (qlog2 x + 1) ≤ 2 ^ e :=
      zpow_le_zpow_right₀ (by norm_num) (by omega)
    linarith
  · have : (2 : ℚ) ^ (e + 1) ≤ 2 ^ qlog2 x :=
      zpow_le_zpow_right₀ (by norm_num) (by omega)
    linarith

theorem roundHalfEven_intCast (n : ℤ) : roundHalfEven ((n : ℚ)) = n := by
  rw [roundHalfEven, Int.floor_intCast]
  norm_num

theorem fl_eval {x : ℚ} {e m : ℤ} (hx : 0 < x) (h1 : (2 : ℚ) ^ e ≤ x)
    (h2 : x < 2 ^ (e + 1)) (hm : roundHalfEven (x / 2 ^ (e - 52)) = m) :
    fl x = (m : ℚ) * 2 ^ (e - 52) := by
  rw [fl, if_neg (not_le.2 hx), qlog2_eq_of hx h1 h2, hm]

theorem fl_eq_self (m : ℕ) (s : ℤ) (h1 : 0 < m) (h2 : m < 2 ^ 53) :
    fl ((m : ℚ) * 2 ^ s) = (m : ℚ) * 2 ^ s := by
  set x := (m : ℚ) * 2 ^ s with hxdef
  have hx : 0 < x := by
    have : (0 : ℚ) < (m : ℚ) := by exact_mod_cast h1
    positivity
  obtain ⟨l, u⟩ := qlog2_spec x hx
  set e := qlog2 x with he
  have he_ub : e ≤ 52 + s := by
    have hmq : (m : ℚ) < 2 ^ (53 : ℕ) := by exact_mod_cast h2
    have hxlt : x < 2 ^ (53 + s) := by
      calc x = (m : ℚ) * 2 ^ s := hxdef
        _ < 2 ^ (53 : ℕ) * 2 ^ s := by
            exact mul_lt_mul_of_pos_right hmq (zpow_pos (by norm_num) s)
        _ = 2 ^ (53 + s) := by
            rw [← zpow_natCast (2 : ℚ) 53, ← zpow_add₀ (by norm_num : (2 : ℚ) ≠ 0)]
            norm_num
    have h2e : (2 : ℚ) ^ e < 2 ^ (53 + s) := lt_of_le_of_lt l hxlt
    have := (zpow_lt_zpow_iff_right₀ (by norm_num : (1 : ℚ) < 2)).1 h2e
    omega
  have key : x / 2 ^ (e - 52) = (((m : ℤ) * 2 ^ (52 + s - e).toNat : ℤ) : ℚ) := by
    rw [div_eq_iff (by positivity : ((2 : ℚ) ^ (e - 52)) ≠ 0)]
    push_cast
    rw [← zpow_natCast (2 : ℚ) ((52 + s - e).toNat), Int.toNat_of_nonneg (by omega),
      mul_assoc, ← zpow_add₀ (by norm_num : (2 : ℚ) ≠ 0),
      show 52 + s - e + (e - 52) = s by ring]
  rw [fl, if_neg (not_le.2 hx), ← he, key, roundHalfEven_intCast, ← key,
    div_mul_cancel₀ _ (by positivity : ((2 : ℚ) ^ (e - 52)) ≠ 0)]

theorem abs_roundHalfEven_sub (q : ℚ) : |(roundHalfEven q : ℚ) - q| ≤ 1 / 2 := by
  have h1 := Int.floor_le q
  have h2 := Int.lt_floor_add_one q
  rw [roundHalfEven]
  split_ifs with ha hb hc
  · rw [abs_le]; constructor <;> linarith
  · rw [abs_le]; push_cast; constructor <;> linarith
  · rw [abs_le]; constructor <;> linarith
  · rw [abs_le]; push_cast; constructor <;> linarith

theorem fl_within {x : ℚ} (hx : 0 < x) :
    x * (1 - 1 / 2 ^ 53) ≤ fl x ∧ fl x ≤ x * (1 + 1 / 2 ^ 53) := by
  obtain ⟨l, u⟩ := qlog2_spec x hx
  set e := qlog2 x with he
  have hsc : (0 : ℚ) < 2 ^ (e - 52) := zpow_pos (by norm_num) _
  have herr : |fl x - x| ≤ 2 ^ (e - 52) * (1 / 2) := by
    rw [fl, if_neg (not_le.2 hx), ← he]
    have hrw : (roundHalfEven (x / 2 ^ (e - 52)) : ℚ) * 2 ^ (e - 52) - x =
        ((roundHalfEven (x / 2 ^ (e - 52)) : ℚ) - x / 2 ^ (e - 52)) * 2 ^ (e - 52) := by
      field_simp
    rw [hrw, abs_mul, abs_of_pos hsc, mul_comm]
    exact mul_le_mul_of_nonneg_left (abs_roundHalfEven_sub _) hsc.le
  have hb : (2 : ℚ) ^ (e - 52) * (1 / 2) ≤ x * (1 / 2 ^ 53) := by
    have h253 : (2 : ℚ) ^ (-53 : ℤ) = 1 / 2 ^ (53 : ℕ) := by
      rw [zpow_neg, one_div]
      norm_num
    have h1 : (2 : ℚ) ^ (e - 52) * (1 / 2) = 2 ^ e * (1 / 2 ^ 53) := by
      rw [show e - 52 = e + -53 + 1 by ring, zpow_add₀ (by norm_num : (2 : ℚ) ≠ 0),
        zpow_add₀ (by norm_num : (2 : ℚ) ≠ 0), h253, zpow_one]
      ring
    rw [h1]
    exact mul_le_mul_of_nonneg_right l (by positivity)
  have habs : |fl x - x| ≤ x * (1 / 2 ^ 53) := le_trans herr hb
  rw [abs_le] at habs
  constructor <;> nlinarith [habs.1, habs.2]

theorem two_zpow_neg (k : ℕ) : (2 : ℚ) ^ (-(k : ℤ)) = 1 / 2 ^ k := by
  rw [zpow_neg, zpow_natCast, one_div]

theorem roundHalfEven_eq_of_lt_half {q : ℚ} {n : ℤ} (h1 : (n : ℚ) ≤ q)
    (h2 : q < n + 1 / 2) : roundHalfEven q = n := by
  have hf : ⌊q⌋ = n := by
    rw [Int.floor_eq_iff]
    constructor
    · exact h1
    · linarith
  rw [roundHalfEven, hf, if_pos]
  linarith

theorem roundHalfEven_eq_of_tie_even {q : ℚ} {n : ℤ} (h : q = n + 1 / 2)
    (he : n % 2 = 0) : roundHalfEven q = n := by
  have hf : ⌊q⌋ = n := by
    rw [Int.floor_eq_iff]
    constructor
    · linarith
    · linarith
  rw [roundHalfEven, hf, if_neg (by linarith), if_neg (by linarith), if_pos he]

theorem fl03_val : fl03 = 5404319552844595 / 2 ^ 54 := by
  have h54 : ((-2 : ℤ) - 52) = -((54 : ℕ) : ℤ) := by norm_num
  have harg : (3 / 10 : ℚ) / 2 ^ ((-2 : ℤ) - 52) = 3 / 10 * 2 ^ (54 : ℕ) := by
    rw [h54, two_zpow_neg, div_div_eq_mul_div, div_one]
  have hm : roundHalfEven ((3 / 10 : ℚ) / 2 ^ ((-2 : ℤ) - 52)) = 5404319552844595 := by
    rw [harg]
    apply roundHalfEven_eq_of_lt_half
    · norm_num
    · norm_num
  have h1 : (2 : ℚ) ^ (-2 : ℤ) ≤ 3 / 10 := by
    rw [show (-2 : ℤ) = -((2 : ℕ) : ℤ) by norm_num, two_zpow_neg]
    norm_num
  have h2 : (3 / 10 : ℚ) < 2 ^ ((-2 : ℤ) + 1) := by
    rw [show ((-2 : ℤ) + 1) = -((1 : ℕ) : ℤ) by norm_num, two_zpow_neg]
    norm_num
  rw [fl03, fl_eval (by norm_num) h1 h2 hm, h54, two_zpow_neg]
  ring

theorem fl_3xfl03 : fl ((3 : ℚ) * fl03) = 8106479329266892 / 2 ^ 53 := by
  have hxv : (3 : ℚ) * fl03 = 16212958658533785 / 2 ^ 54 := by
    rw [fl03_val]
    ring
  have h53 : ((-1 : ℤ) - 52) = -((53 : ℕ) : ℤ) := by norm_num
  have hm : roundHalfEven ((3 : ℚ) * fl03 / 2 ^ ((-1 : ℤ) - 52)) = 8106479329266892 := by
    rw [hxv, h53, two_zpow_neg, div_div_eq_mul_div, div_one]
    apply roundHalfEven_eq_of_tie_even
    · norm_num
    · norm_num
  have h1 : (2 : ℚ) ^ (-1 : ℤ) ≤ (3 : ℚ) * fl03 := by
    rw [show (-1 : ℤ) = -((1 : ℕ) : ℤ) by norm_num, two_zpow_neg, hxv]
    norm_num
  have h2 : (3 : ℚ) * fl03 < 2 ^ ((-1 : ℤ) + 1) := by
    rw [show ((-1 : ℤ) + 1) = (0 : ℤ) by norm_num, zpow_zero, hxv]
    norm_num
  rw [fl_eval (by rw [hxv]; norm_num) h1 h2 hm, h53, two_zpow_neg]
  ring

theorem fl_30x : fl ((30 : ℚ) * fl ((3 : ℚ) * fl03)) = 7599824371187711 / 2 ^ 48 := by
  have hxv : (30 : ℚ) * fl ((3 : ℚ) * fl03) = 243194379878006760 / 2 ^ 53 := by
    rw [fl_3xfl03]
    ring
  have h48 : ((4 : ℤ) - 52) = -((48 : ℕ) : ℤ) := by norm_num
  have hm : roundHalfEven ((30 : ℚ) * fl ((3 : ℚ) * fl03) / 2 ^ ((4 : ℤ) - 52)) =
      7599824371187711 := by
    rw [hxv, h48, two_zpow_neg, div_div_eq_mul_div, div_one]
    apply roundHalfEven_eq_of_lt_half
    · norm_num
    · norm_num
  have h1 : (2 : ℚ) ^ (4 : ℤ) ≤ (30 : ℚ) * fl ((3 : ℚ) * fl03) := by
    rw [show (4 : ℤ) = ((4 : ℕ) : ℤ) by norm_num, zpow_natCast, hxv]
    norm_num
  have h2 : (30 : ℚ) * fl ((3 : ℚ) * fl03) < 2 ^ ((4 : ℤ) + 1) := by
    rw [show ((4 : ℤ) + 1) = ((5 : ℕ) : ℤ) by norm_num, zpow_natCast, hxv]
    norm_num
  rw [fl_eval (by rw [hxv]; norm_num) h1 h2 hm, h48, two_zpow_neg]
  ring

theorem animalPoints_near (t d : ℕ) (ht : 0 < t) (hd : 0 < d) (hb : t * d ≤ 2 ^ 45) :
    |fl ((t : ℚ) * fl ((d : ℚ) * fl03)) - (t : ℚ) * (d : ℚ) * (3 / 10)| ≤ 1 / 100 := by
  have hT1 : (1 : ℚ) ≤ (t : ℚ) := by exact_mod_cast ht
  have hD1 : (1 : ℚ) ≤ (d : ℚ) := by exact_mod_cast hd
  have hTD : (t : ℚ) * (d : ℚ) ≤ 2 ^ 45 := by
    have h1 : ((t * d : ℕ) : ℚ) ≤ ((2 ^ 45 : ℕ) : ℚ) := Nat.cast_le.2 hb
    push_cast at h1
    linarith
  have hε1 : (0 : ℚ) < 1 / 2 ^ 53 := by norm_num
  have hε2 : (1 / 2 ^ 53 : ℚ) ≤ 1 / 1000 := by norm_num
  have h03 : (0 : ℚ) < 3 / 10 := by norm_num
  have hA1 : 3 / 10 * (1 - 1 / 2 ^ 53) ≤ fl03 := (fl_within h03).1
  have hA2 : fl03 ≤ 3 / 10 * (1 + 1 / 2 ^ 53) := (fl_within h03).2
  have hApos : 0 < fl03 := by nlinarith
  have hDA : 0 < (d : ℚ) * fl03 := by positivity
  have hB1 : (d : ℚ) * fl03 * (1 - 1 / 2 ^ 53) ≤ fl ((d : ℚ) * fl03) := (fl_within hDA).1
  have hB2 : fl ((d : ℚ) * fl03) ≤ (d : ℚ) * fl03 * (1 + 1 / 2 ^ 53) := (fl_within hDA).2
  have hBpos : 0 < fl ((d : ℚ) * fl03) := by nlinarith
  have hTB : 0 < (t : ℚ) * fl ((d : ℚ) * fl03) := by positivity
  have hC1 := (fl_within hTB).1
  have hC2 := (fl_within hTB).2
  have hnum : (3 / 10 * 2 ^ 45 : ℚ) * (4 * (1 / 2 ^ 53)) ≤ 1 / 100 := by norm_num
  generalize hεdef : (1 / 2 ^ 53 : ℚ) = ε at hε1 hε2 hA1 hA2 hB1 hB2 hC1 hC2 hnum
  generalize hAdef : fl03 = A at hA1 hA2 hApos hDA hB1 hB2 hBpos hTB hC1 hC2 ⊢
  generalize hBdef : fl ((d : ℚ) * A) = B at hB1 hB2 hBpos hTB hC1 hC2 ⊢
  generalize hCdef : fl ((t : ℚ) * B) = C at hC1 hC2 ⊢
  have hεnn : (0 : ℚ) ≤ 1 + ε := by linarith
  have hεnn2 : (0 : ℚ) ≤ 1 - ε := by linarith
  have hTnn : (0 : ℚ) ≤ (t : ℚ) := by linarith
  have up : C ≤ (t : ℚ) * (d : ℚ) * (3 / 10) * (1 + ε) ^ 3 := by
    calc C ≤ (t : ℚ) * B * (1 + ε) := hC2
      _ ≤ (t : ℚ) * ((d : ℚ) * A * (1 + ε)) * (1 + ε) :=
          mul_le_mul_of_nonneg_right (mul_le_mul_of_nonneg_left hB2 hTnn) hεnn
      _ ≤ (t : ℚ) * ((d : ℚ) * (3 / 10 * (1 + ε)) * (1 + ε)) * (1 + ε) := by
          apply mul_le_mul_of_nonneg_right _ hεnn
          apply mul_le_mul_of_nonneg_left _ hTnn
          exact mul_le_mul_of_nonneg_right
            (mul_le_mul_of_nonneg_left hA2 (by linarith)) hεnn
      _ = (t : ℚ) * (d : ℚ) * (3 / 10) * (1 + ε) ^ 3 := by ring
  have low : (t : ℚ) * (d : ℚ) * (3 / 10) * (1 - ε) ^ 3 ≤ C := by
    calc (t : ℚ) * (d : ℚ) * (3 / 10) * (1 - ε) ^ 3
        = (t : ℚ) * ((d : ℚ) * (3 / 10 * (1 - ε)) * (1 - ε)) * (1 - ε) := by ring
      _ ≤ (t : ℚ) * ((d : ℚ) * A * (1 - ε)) * (1 - ε) := by
          apply mul_le_mul_of_nonneg_right _ hεnn2
          apply mul_le_mul_of_nonneg_left _ hTnn
          exact mul_le_mul_of_nonneg_right
            (mul_le_mul_of_nonneg_left hA1 (by linarith)) hεnn2
      _ ≤ (t : ℚ) * B * (1 - ε) :=
          mul_le_mul_of_nonneg_right (mul_le_mul_of_nonneg_left hB1 hTnn) hεnn2
      _ ≤ C := hC1
  have cube_up : (1 + ε) ^ 3 ≤ 1 + 4 * ε := by nlinarith [sq_nonneg ε, hε1.le, hε2]
  have cube_lo : 1 - 4 * ε ≤ (1 - ε) ^ 3 := by nlinarith [sq_nonneg ε, hε1.le, hε2]
  have qnn : (0 : ℚ) ≤ (t : ℚ) * (d : ℚ) * (3 / 10) := by positivity
  have qbound : (t : ℚ) * (d : ℚ) * (3 / 10) ≤ 3 / 10 * 2 ^ 45 := by
    have h := mul_le_mul_of_nonneg_right hTD (by norm_num : (0 : ℚ) ≤ 3 / 10)
    linarith
  have h4ε : (0 : ℚ) ≤ 4 * ε := by linarith
  rw [abs_le]
  constructor
  · linarith [low, mul_le_mul_of_nonneg_left cube_lo qnn,
      mul_le_mul_of_nonneg_right qbound h4ε, hnum]
  · linarith [up, mul_le_mul_of_nonneg_left cube_up qnn,
      mul_le_mul_of_nonneg_right qbound h4ε, hnum]

theorem floor_near_tenth {C : ℚ} {N r : ℕ} (hr : r < 10)
    (h : |C - ((10 * N + r : ℕ) : ℚ) / 10| ≤ 1 / 100) :
    ⌊C⌋ = (N : ℤ) ∨ (r = 0 ∧ ⌊C⌋ = (N : ℤ) - 1) := by
  rw [abs_le] at h
  have hqQ : ((10 * N + r : ℕ) : ℚ) / 10 = (N : ℚ) + (r : ℚ) / 10 := by
    push_cast
    ring
  rw [hqQ] at h
  by_cases h0 : r = 0
  · subst h0
    push_cast at h
    rcases le_or_lt ((N : ℚ)) C with hge | hlt
    · left
      rw [Int.floor_eq_iff]
      constructor
      · push_cast
        linarith
      · push_cast
        linarith
    · right
      refine ⟨rfl, ?_⟩
      rw [Int.floor_eq_iff]
      constructor
      · push_cast
        linarith
      · push_cast
        linarith
  · left
    have hr1 : 1 ≤ r := by omega
    have hr1Q : (1 : ℚ) ≤ (r : ℚ) := by exact_mod_cast hr1
    have hr9Q : (r : ℚ) ≤ 9 := by exact_mod_cast (by omega : r ≤ 9)
    rw [Int.floor_eq_iff]
    constructor
    · push_cast
      linarith
    · push_cast
      linarith

theorem fl05_val : fl05 = 1 / 2 := by
  have key : ((1 : ℕ) : ℚ) * 2 ^ (-1 : ℤ) = 1 / 2 := by
    rw [show (-1 : ℤ) = -((1 : ℕ) : ℤ) by norm_num, two_zpow_neg]
    norm_num
  calc fl05 = fl (((1 : ℕ) : ℚ) * 2 ^ (-1 : ℤ)) := by rw [fl05, key]
    _ = ((1 : ℕ) : ℚ) * 2 ^ (-1 : ℤ) := fl_eq_self 1 (-1) (by norm_num) (by norm_num)
    _ = 1 / 2 := key

theorem pointsEarnedMult_exact (t d : ℕ) (ht : 0 < t) (hd : 0 < d)
    (hb : t * d < 2 ^ 53) :
    pointsEarnedMult t d true = max 1 ⌊(t : ℚ) * (d : ℚ) * (1 / 2)⌋ := by
  have hd53 : d < 2 ^ 53 := by
    have : d ≤ t * d := Nat.le_mul_of_pos_left d ht
    omega
  have hhalf : (2 : ℚ) ^ (-1 : ℤ) = 1 / 2 := by
    rw [show (-1 : ℤ) = -((1 : ℕ) : ℤ) by norm_num, two_zpow_neg]
    norm_num
  have hstep1 : fl ((d : ℚ) * fl05) = (d : ℚ) * 2 ^ (-1 : ℤ) := by
    have key : (d : ℚ) * fl05 = ((d : ℕ) : ℚ) * 2 ^ (-1 : ℤ) := by
      rw [fl05_val, hhalf]
    rw [key, fl_eq_self d (-1) hd hd53]
  have hstep2 : fl ((t : ℚ) * ((d : ℚ) * 2 ^ (-1 : ℤ))) = ((t * d : ℕ) : ℚ) * 2 ^ (-1 : ℤ) := by
    have key : (t : ℚ) * ((d : ℚ) * 2 ^ (-1 : ℤ)) = ((t * d : ℕ) : ℚ) * 2 ^ (-1 : ℤ) := by
      push_cast
      ring
    rw [key, fl_eq_self (t * d) (-1) (Nat.mul_pos ht hd) hb]
  have hred : pointsEarnedMult t d true =
      max 1 ⌊fl ((t : ℚ) * fl ((d : ℚ) * fl05))⌋ := rfl
  have hargs : ((t * d : ℕ) : ℚ) * 2 ^ (-1 : ℤ) = (t : ℚ) * (d : ℚ) * (1 / 2) := by
    rw [hhalf]
    push_cast
    ring
  rw [hred, hstep1, hstep2, hargs]

/-! ### Lemmas about the option-generation loop -/

theorem collectOptions_spec (c : ℤ) :
    ∀ (draws : List Draw) (l opts : List ℤ),
      l.Nodup → (∀ x ∈ l, 0 < x) → c ∈ l → l.length ≤ 4 →
      collectOptions c l draws = some opts →
      opts.length = 4 ∧ opts.Nodup ∧ (∀ x ∈ opts, 0 < x) ∧ c ∈ opts := by
  intro draws
  induction draws with
  | nil =>
      intro l opts h1 h2 h3 h4 hc
      rw [collectOptions] at hc
      by_cases hlen : 4 ≤ l.length
      · rw [if_pos hlen] at hc
        obtain rfl : l = opts := by injection hc
        exact ⟨by omega, h1, h2, h3⟩
      · rw [if_neg hlen] at hc
        exact absurd hc (by simp)
  | cons dr rest ih =>
      intro l opts h1 h2 h3 h4 hc
      rw [collectOptions] at hc
      by_cases hlen : 4 ≤ l.length
      · rw [if_pos hlen] at hc
        obtain rfl : l = opts := by injection hc
        exact ⟨by omega, h1, h2, h3⟩
      · rw [if_neg hlen] at hc
        by_cases hacc : 0 < drawValue c dr ∧ drawValue c dr ∉ l
        · have hstep : optionsStep c l dr = l ++ [drawValue c dr] := by
            simp only [optionsStep]
            rw [if_pos hacc]
          rw [hstep] at hc
          refine ih (l ++ [drawValue c dr]) opts ?_ ?_ ?_ ?_ hc
          · rw [List.nodup_append]
            refine ⟨h1, List.nodup_singleton _, ?_⟩
            intro x hx hx2
            rw [List.mem_singleton] at hx2
            subst hx2
            exact hacc.2 hx
          · intro x hx
            rcases List.mem_append.1 hx with hx | hx
            · exact h2 x hx
            · rw [List.mem_singleton] at hx
              subst hx
              exact hacc.1
          · exact List.mem_append.2 (Or.inl h3)
          · rw [List.length_append, List.length_singleton]
            omega
        · have hstep : optionsStep c l dr = l := by
            simp only [optionsStep]
            rw [if_neg hacc]
          rw [hstep] at hc
          exact ih l opts h1 h2 h3 h4 hc

theorem collectOptions_canTerminate (c : ℤ) (d : ℕ) (hc : 0 < c) (hd1 : 1 ≤ d)
    (hd5 : d ≤ 5) (hne : ¬(d = 5 ∧ c = 1)) :
    ∃ draws : List Draw, (∀ dr ∈ draws, dr.off < offsetRange d) ∧
      ∃ opts, collectOptions c [c] draws = some opts := by
  rcases eq_or_lt_of_le hc with hceq | hc2
  · have hc1 : c = 1 := hceq.symm
    subst hc1
    have hd4 : d ≤ 4 := by
      by_contra hgt
      exact hne ⟨by omega, rfl⟩
    refine ⟨[⟨0, true⟩, ⟨1, true⟩, ⟨2, true⟩], ?_, [1, 2, 3, 4], by decide⟩
    intro dr hdr
    fin_cases hdr <;> simp [offsetRange] <;> omega
  · refine ⟨[⟨0, false⟩, ⟨0, true⟩, ⟨1, true⟩], ?_, [c, c - 1, c + 1, c + 2], ?_⟩
    · intro dr hdr
      fin_cases hdr <;> simp [offsetRange] <;> omega
    · have hv1 : drawValue c ⟨0, false⟩ = c - 1 := by
        simp [drawValue]
      have hv2 : drawValue c ⟨0, true⟩ = c + 1 := by
        simp [drawValue]
      have hv3 : drawValue c ⟨1, true⟩ = c + 2 := by
        norm_num [drawValue]
      have cond1 : 0 < c - 1 ∧ (c - 1 : ℤ) ∉ [c] := by
        refine ⟨by omega, fun hmem => ?_⟩
        simp only [List.mem_singleton] at hmem
        omega
      have cond2 : 0 < c + 1 ∧ (c + 1 : ℤ) ∉ [c, c - 1] := by
        refine ⟨by omega, fun hmem => ?_⟩
        simp only [List.mem_cons, List.mem_singleton, List.not_mem_nil, or_false] at hmem
        omega
      have cond3 : 0 < c + 2 ∧ (c + 2 : ℤ) ∉ [c, c - 1, c + 1] := by
        refine ⟨by omega, fun hmem => ?_⟩
        simp only [List.mem_cons, List.mem_singleton, List.not_mem_nil, or_false] at hmem
        omega
      have s1 : optionsStep c [c] ⟨0, false⟩ = [c, c - 1] := by
        simp only [optionsStep, hv1]
        rw [if_pos cond1]
        rfl
      have s2 : optionsStep c [c, c - 1] ⟨0, true⟩ = [c, c - 1, c + 1] := by
        simp only [optionsStep, hv2]
        rw [if_pos cond2]
        rfl
      have s3 : optionsStep c [c, c - 1, c + 1] ⟨1, true⟩ = [c, c - 1, c + 1, c + 2] := by
        simp only [optionsStep, hv3]
        rw [if_pos cond3]
        rfl
      rw [collectOptions, if_neg (by norm_num), s1,
        collectOptions, if_neg (by norm_num), s2,
        collectOptions, if_neg (by norm_num), s3,
        collectOptions, if_pos (by norm_num)]

/-! ### Lemmas about the Round Session state machine -/

theorem tickStep_active (pb : Problem) (opts : List ℤ) (T dd t : ℕ) (h : 2 ≤ t) :
    tickStep (mkActiveAt pb opts T dd t) = mkActiveAt pb opts T dd (t - 1) := by
  have h1 : 0 < t := by omega
  have h2 : ¬(t - 1 = 0) := by omega
  have h3 : 0 < t - 1 := by omega
  simp [tickStep, mkActiveAt, mkFreshSession, runTickEffect, schedTickFlag,
    lockTimeout, h1, h2, h3]

theorem tickStep_lock (pb : Problem) (opts : List ℤ) (T dd : ℕ) :
    tickStep (mkActiveAt pb opts T dd 1) = lockedSession pb opts T dd := by
  simp [tickStep, mkActiveAt, mkFreshSession, runTickEffect, schedTickFlag,
    lockTimeout, lockedSession]

theorem tickStep_locked (pb : Problem) (opts : List ℤ) (T dd : ℕ) :
    tickStep (lockedSession pb opts T dd) = lockedSession pb opts T dd := by
  simp [tickStep, lockedSession, mkActiveAt, mkFreshSession]

theorem tick_iterate (pb : Problem) (opts : List ℤ) (T dd : ℕ) :
    ∀ t, 1 ≤ t → tickStep^[t] (mkActiveAt pb opts T dd t) = lockedSession pb opts T dd := by
  intro t
  induction t with
  | zero => omega
  | succ n ih =>
      intro _
      by_cases hn : n = 0
      · subst hn
        rw [Function.iterate_one]
        exact tickStep_lock pb opts T dd
      · have h2 : 2 ≤ n + 1 := by omega
        rw [Function.iterate_succ_apply, tickStep_active pb opts T dd (n + 1) h2,
          Nat.add_sub_cancel]
        exact ih (by omega)

theorem stepEv_unmounted {st : GameSession} (h : st.mounted = false) (e : SEvent) :
    (stepEv st e).completedReports = st.completedReports ∧
    (stepEv st e).mounted = false := by
  cases e with
  | selectOpt o => simp [stepEv, h]
  | tickFire =>
      refine ⟨?_, ?_⟩ <;> simp [stepEv, tickStep, h]
  | completionFire =>
      cases hcp : st.completionPending with
      | none => simp [stepEv, fireCompletion, hcp, h]
      | some p => simp [stepEv, fireCompletion, hcp, h]
  | unmountEv => simp [stepEv]

theorem foldl_unmounted (evs : List SEvent) :
    ∀ st : GameSession, st.mounted = false →
      (evs.foldl stepEv st).completedReports = st.completedReports := by
  induction evs with
  | nil => intro st _; rfl
  | cons e rest ih =>
      intro st h
      rw [List.foldl_cons]
      obtain ⟨h1, h2⟩ := stepEv_unmounted h e
      rw [ih _ h2, h1]

/-! ### Lemmas about the orchestrator -/

theorem updatePlayerScore_level_le (p : Player) (pts : ℤ) (c : Bool)
    (h : p.level ≤ 10) : (updatePlayerScore p pts c).level ≤ 10 := by
  simp only [updatePlayerScore, checkForLevelUp]
  split_ifs <;> simp <;> omega

theorem updatePlayerScore_crossing (p : Player) (pts : ℤ) (hlt : p.level < 10)
    (hcross : p.correctAnswers + 1 = p.level * 5) :
    (updatePlayerScore p pts true).level = p.level + 1 ∧
    (updatePlayerScore p pts true).correctAnswers <
      (updatePlayerScore p pts true).level * 5 := by
  simp only [updatePlayerScore, checkForLevelUp]
  split_ifs with hcond <;> simp at hcond ⊢ <;> omega

theorem updatePlayerScore_below (p : Player) (pts : ℤ)
    (hbelow : p.correctAnswers + 1 < p.level * 5) :
    (updatePlayerScore p pts true).level = p.level := by
  simp only [updatePlayerScore, checkForLevelUp]
  split_ifs with hcond <;> simp at hcond ⊢ <;> omega

theorem max_one_cases (N n : ℤ) (h : n = N ∨ n = N - 1) :
    max 1 n = max 1 N ∨ max 1 n = max 1 N - 1 := by
  rcases h with rfl | rfl
  · exact Or.inl rfl
  · rcases le_or_lt N 1 with h1 | h1
    · left
      rw [max_eq_left (by omega : N - 1 ≤ 1), max_eq_left (by omega : N ≤ 1)]
    · right
      rw [max_eq_right (by omega : 1 ≤ N - 1), max_eq_right (by omega : 1 ≤ N)]

/-! ### Claim theorems -/

/-- C1: For every difficulty in [1,5] and every positive correct answer,
whenever the collection loop of `generateOptions` returns, its result
(after the random comparator shuffle, modelled as an arbitrary
permutation) is a list of exactly 4 pairwise-distinct positive integers
containing the correct answer exactly once. -/
theorem generateOptions_four_distinct (c : ℤ) (d : ℕ) (draws : List Draw)
    (opts res : List ℤ) (hc : 0 < c) (hd1 : 1 ≤ d) (hd5 : d ≤ 5)
    (hcollect : collectOptions c [c] draws = some opts)
    (hshuffle : res.Perm opts) :
    res.length = 4 ∧ res.Nodup ∧ (∀ x ∈ res, 0 < x) ∧ res.count c = 1 := by
  obtain ⟨hlen, hnd, hpos, hmem⟩ :=
    collectOptions_spec c draws [c] opts (List.nodup_singleton c)
      (by intro x hx
          rw [List.mem_singleton] at hx
          subst hx
          exact hc)
      (List.mem_singleton_self c) (by simp) hcollect
  have hnd' : res.Nodup := hshuffle.symm.nodup hnd
  have hmem' : c ∈ res := hshuffle.mem_iff.2 hmem
  refine ⟨hshuffle.length_eq.trans hlen, hnd', ?_, ?_⟩
  · intro x hx
    exact hpos x (hshuffle.subset hx)
  · exact List.count_eq_one_of_mem hnd' hmem'

/-- C1 witness: difficulty 1, correct answer 12, draws producing
13, 11, 14; shuffled as [14, 13, 12, 11]. -/
theorem generateOptions_four_distinct_witness :
    ([14, 13, 12, 11] : List ℤ).length = 4 ∧ ([14, 13, 12, 11] : List ℤ).Nodup ∧
    (∀ x ∈ ([14, 13, 12, 11] : List ℤ), 0 < x) ∧
    ([14, 13, 12, 11] : List ℤ).count 12 = 1 :=
  generateOptions_four_distinct 12 1 [⟨0, true⟩, ⟨0, false⟩, ⟨1, true⟩]
    [12, 13, 11, 14] [14, 13, 12, 11] (by decide) (by decide) (by decide)
    (by decide) (by decide)

/-- C2 counterexample: the claim asserts the loop terminates for every
draw sequence because 4 acceptable values always exist.  At difficulty 5
and correct answer 1 only 2 decoy values (2 and 3) are ever acceptable,
so 4 options can never be collected; and even at difficulty 1, correct
answer 5, the constant draw sequence (offset 1, sign minus) is rejected
forever after the first acceptance, so the loop does not terminate on
every sequence. -/
theorem optionLoop_termination_counterexample :
    (acceptableDecoys 1 5).card = 2 ∧
    collectOptions 5 [5] (List.replicate 20 (⟨0, false⟩ : Draw)) = none := by
  constructor
  · decide
  · decide

/-- C2 amended: termination is not guaranteed for every draw sequence,
but whenever difficulty is in [1,5], the correct answer is positive and
it is not the case that difficulty = 5 with correct answer 1, some
in-range draw sequence makes the loop collect 4 options (the loop is not
inevitably stuck). -/
theorem optionLoop_possible_termination (c : ℤ) (d : ℕ) (hc : 0 < c)
    (hd1 : 1 ≤ d) (hd5 : d ≤ 5) (hne : ¬(d = 5 ∧ c = 1)) :
    ∃ draws : List Draw, (∀ dr ∈ draws, dr.off < offsetRange d) ∧
      ∃ opts, collectOptions c [c] draws = some opts :=
  collectOptions_canTerminate c d hc hd1 hd5 hne

/-- C2 amended witness at difficulty 5, correct answer 5. -/
theorem optionLoop_possible_termination_witness :
    ∃ draws : List Draw, (∀ dr ∈ draws, dr.off < offsetRange 5) ∧
      ∃ opts, collectOptions 5 [5] draws = some opts :=
  optionLoop_possible_termination 5 5 (by decide) (by decide) (by decide)
    (by decide)

/-- C3 counterexample: the opposites/animals scoring runs in binary64
doubles, where `0.3` is not exact.  At timeLeft 30 (a session with
timerDuration 30) and difficulty 3 (a reachable level), the code computes
`Math.floor(30 * (3 * 0.3)) = Math.floor(26.999999999999996) = 26`,
while the claimed formula `max(1, floor(30 * 3 * 0.3))` gives 27. -/
theorem scoring_rule_counterexample :
    pointsEarnedAnimal 30 3 true = 26 ∧
    max 1 ⌊(30 : ℚ) * (3 : ℚ) * (3 / 10)⌋ = 27 ∧ (26 : ℤ) ≠ 27 := by
  refine ⟨?_, ?_, by decide⟩
  · have hred : pointsEarnedAnimal 30 3 true =
        max 1 ⌊fl (((30 : ℕ) : ℚ) * fl (((3 : ℕ) : ℚ) * fl03))⌋ := rfl
    have hc30 : (((30 : ℕ) : ℚ)) = (30 : ℚ) := by norm_num
    have hc3 : (((3 : ℕ) : ℚ)) = (3 : ℚ) := by norm_num
    rw [hred, hc30, hc3, fl_30x]
    have hfloor : ⌊(7599824371187711 / 2 ^ 48 : ℚ)⌋ = 26 := by
      rw [Int.floor_eq_iff]
      constructor
      · norm_num
      · norm_num
    rw [hfloor]
    decide
  · have harg : ((30 : ℚ) * (3 : ℚ) * (3 / 10)) = ((27 : ℤ) : ℚ) := by norm_num
    rw [harg, Int.floor_intCast]
    decide

/-- C3 amended: on a fresh active multiplication/word-math session the
selection handler reports exactly max(1, floor(t*d*0.5)) points on the
correct answer (0.5 is exact in binary64, shown for t*d < 2^53) and 0 on
a wrong answer; a timeout reports 0 points; for the opposites/animals
games (k = 0.3, inexact in binary64) the reported points equal the
claimed formula max(1, floor(t*d*0.3)) or fall exactly one below it
(for t*d up to 2^45); and the claim's own instance 15 = max(1,
floor(15*2*0.5)) holds. -/
theorem scoring_rule_amended :
    (∀ (pb : Problem) (opts : List ℤ) (T dd t : ℕ) (o : ℤ),
      0 < t → 0 < dd → t * dd < 2 ^ 53 →
      (handleOptionSelect (mkActiveAt pb opts T dd t) o).completionPending =
        some ((if o = pb.answer then max 1 ⌊(t : ℚ) * (dd : ℚ) * (1 / 2)⌋ else 0),
          decide (o = pb.answer))) ∧
    (∀ (pb : Problem) (opts : List ℤ) (T dd : ℕ),
      (tickStep (mkActiveAt pb opts T dd 1)).completionPending = some (0, false)) ∧
    (∀ t dd : ℕ, 0 < t → 0 < dd → t * dd ≤ 2 ^ 45 →
      pointsEarnedAnimal t dd true = max 1 ⌊(t : ℚ) * (dd : ℚ) * (3 / 10)⌋ ∨
      pointsEarnedAnimal t dd true = max 1 ⌊(t : ℚ) * (dd : ℚ) * (3 / 10)⌋ - 1) ∧
    pointsEarnedMult 15 2 true = 15 := by
  refine ⟨?_, ?_, ?_, ?_⟩
  · intro pb opts T dd t o ht hd hb
    by_cases ho : o = pb.answer
    · simp only [handleOptionSelect, mkActiveAt, mkFreshSession, ho]
      norm_num
      rw [pointsEarnedMult_exact t dd ht hd hb, if_neg (Option.some_ne_none pb)]
    · simp only [handleOptionSelect, mkActiveAt, mkFreshSession]
      norm_num [ho]
      rw [if_neg (Option.some_ne_none pb)]
  · intro pb opts T dd
    rw [tickStep_lock]
    rfl
  · intro t dd ht hd hb
    have hnear := animalPoints_near t dd ht hd hb
    have hqeq : (t : ℚ) * (dd : ℚ) * (3 / 10) = ((3 * t * dd : ℕ) : ℚ) / 10 := by
      push_cast
      ring
    rw [hqeq] at hnear
    rw [show (3 * t * dd) = 10 * (3 * t * dd / 10) + 3 * t * dd % 10 from by omega] at hnear
    have hsplit := floor_near_tenth (by omega : 3 * t * dd % 10 < 10) hnear
    have hdisj : ⌊fl ((t : ℚ) * fl ((dd : ℚ) * fl03))⌋ = ((3 * t * dd / 10 : ℕ) : ℤ) ∨
        ⌊fl ((t : ℚ) * fl ((dd : ℚ) * fl03))⌋ = ((3 * t * dd / 10 : ℕ) : ℤ) - 1 := by
      rcases hsplit with hf | ⟨_, hf⟩
      · exact Or.inl hf
      · exact Or.inr hf
    have floorM : ⌊((3 * t * dd : ℕ) : ℚ) / 10⌋ = ((3 * t * dd / 10 : ℕ) : ℤ) := by
      rw [Int.floor_eq_iff]
      constructor
      · rw [le_div_iff (by norm_num : (0 : ℚ) < 10)]
        have hle : ((3 * t * dd / 10 : ℕ)) * 10 ≤ 3 * t * dd := by omega
        push_cast
        exact_mod_cast hle
      · rw [div_lt_iff (by norm_num : (0 : ℚ) < 10)]
        have hlt : 3 * t * dd < ((3 * t * dd / 10) + 1) * 10 := by omega
        push_cast
        exact_mod_cast hlt
    have hred : pointsEarnedAnimal t dd true =
        max 1 ⌊fl ((t : ℚ) * fl ((dd : ℚ) * fl03))⌋ := by
      simp only [pointsEarnedAnimal]
      rw [if_pos trivial]
    rw [hqeq, floorM, hred]
    exact max_one_cases _ _ hdisj
  · have h := pointsEarnedMult_exact 15 2 (by norm_num) (by norm_num) (by norm_num)
    have harg : ((15 : ℕ) : ℚ) * ((2 : ℕ) : ℚ) * (1 / 2) = ((15 : ℤ) : ℚ) := by
      norm_num
    rw [h, harg, Int.floor_intCast]
    decide

/-- C3 amended witness: a correct selection at timeLeft 20, difficulty 2
on a fresh multiplication session, and the double-vs-formula disjunction
at timeLeft 10, difficulty 9. -/
theorem scoring_rule_amended_witness :
    (handleOptionSelect (mkActiveAt ⟨3, 5, 15⟩ [15, 14, 16, 13] 20 2 20) 15).completionPending =
      some ((if (15 : ℤ) = (⟨3, 5, 15⟩ : Problem).answer then
        max 1 ⌊((20 : ℕ) : ℚ) * ((2 : ℕ) : ℚ) * (1 / 2)⌋ else 0),
        decide ((15 : ℤ) = (⟨3, 5, 15⟩ : Problem).answer)) ∧
    (pointsEarnedAnimal 10 9 true = max 1 ⌊((10 : ℕ) : ℚ) * ((9 : ℕ) : ℚ) * (3 / 10)⌋ ∨
     pointsEarnedAnimal 10 9 true = max 1 ⌊((10 : ℕ) : ℚ) * ((9 : ℕ) : ℚ) * (3 / 10)⌋ - 1) :=
  ⟨scoring_rule_amended.1 ⟨3, 5, 15⟩ [15, 14, 16, 13] 20 2 20 15 (by norm_num)
      (by norm_num) (by norm_num),
   scoring_rule_amended.2.2.1 10 9 (by norm_num) (by norm_num) (by norm_num)⟩

/-- C4: once `selectedOption` is set, any further call to the select
handler is a no-op: the whole session state (including the pending
completion timer) is returned unchanged. -/
theorem select_noop_when_locked (st : GameSession) (o : ℤ)
    (h : st.selectedOption ≠ none) : handleOptionSelect st o = st := by
  rw [handleOptionSelect, if_pos]
  exact Or.inl (Option.isSome_iff_ne_none.2 h)

/-- C4 witness: a second click on a locked session changes nothing. -/
theorem select_noop_when_locked_witness :
    handleOptionSelect (lockedSession ⟨3, 4, 12⟩ [12, 11, 13, 14] 3 2) 11 =
      lockedSession ⟨3, 4, 12⟩ [12, 11, 13, 14] 3 2 :=
  select_noop_when_locked (lockedSession ⟨3, 4, 12⟩ [12, 11, 13, 14] 3 2) 11
    (by decide)

/-- C5: a session started with `timeLeft = T ≥ 1` on which the player
never selects locks automatically after exactly `T` ticks: the correct
answer is pre-selected, `isCorrect` is false, the transitioning flag is
set, and further ticks change nothing. -/
theorem timer_auto_locks (pb : Problem) (opts : List ℤ) (T dd : ℕ) (hT : 1 ≤ T) :
    tickStep^[T] (mkActiveSession pb opts T dd) = lockedSession pb opts T dd ∧
    (lockedSession pb opts T dd).selectedOption = some pb.answer ∧
    (lockedSession pb opts T dd).isCorrect = some false ∧
    (lockedSession pb opts T dd).isTransitioning = true ∧
    (lockedSession pb opts T dd).timeLeft = 0 ∧
    tickStep (lockedSession pb opts T dd) = lockedSession pb opts T dd :=
  ⟨tick_iterate pb opts T dd T hT, rfl, rfl, rfl, rfl, tickStep_locked pb opts T dd⟩

/-- C5 witness at T = 3. -/
theorem timer_auto_locks_witness :
    tickStep^[3] (mkActiveSession ⟨3, 4, 12⟩ [12, 11, 13, 14] 3 2) =
      lockedSession ⟨3, 4, 12⟩ [12, 11, 13, 14] 3 2 ∧
    (lockedSession ⟨3, 4, 12⟩ [12, 11, 13, 14] 3 2).selectedOption =
      some (⟨3, 4, 12⟩ : Problem).answer ∧
    (lockedSession ⟨3, 4, 12⟩ [12, 11, 13, 14] 3 2).isCorrect = some false ∧
    (lockedSession ⟨3, 4, 12⟩ [12, 11, 13, 14] 3 2).isTransitioning = true ∧
    (lockedSession ⟨3, 4, 12⟩ [12, 11, 13, 14] 3 2).timeLeft = 0 ∧
    tickStep (lockedSession ⟨3, 4, 12⟩ [12, 11, 13, 14] 3 2) =
      lockedSession ⟨3, 4, 12⟩ [12, 11, 13, 14] 3 2 :=
  timer_auto_locks ⟨3, 4, 12⟩ [12, 11, 13, 14] 3 2 (by decide)

/-- C6: unmounting cancels both pending timers, and for every sequence of
events delivered after the unmount (stale timer firings, clicks), the
completion callback never runs: the list of `onComplete` invocations
stays exactly what it was at teardown. -/
theorem unmount_silences_callbacks (st : GameSession) (evs : List SEvent) :
    (evs.foldl stepEv (stepEv st SEvent.unmountEv)).completedReports =
      st.completedReports ∧
    (stepEv st SEvent.unmountEv).completionPending = none ∧
    (stepEv st SEvent.unmountEv).tickPending = false := by
  refine ⟨?_, rfl, rfl⟩
  rw [foldl_unmounted evs _ rfl]
  rfl

/-- C7: when a correct round makes `correctAnswers` reach the threshold
`level * 5` with `level < 10`, the level increments by exactly one, and
the updated player sits strictly below the next threshold (so the
increment happens exactly once per crossing); below the threshold the
level is unchanged; and the level never exceeds 10. -/
theorem levelUp_exactly_once :
    (∀ (p : Player) (pts : ℤ), p.level < 10 → p.correctAnswers + 1 = p.level * 5 →
      (updatePlayerScore p pts true).level = p.level + 1 ∧
      (updatePlayerScore p pts true).correctAnswers <
        (updatePlayerScore p pts true).level * 5) ∧
    (∀ (p : Player) (pts : ℤ), p.correctAnswers + 1 < p.level * 5 →
      (updatePlayerScore p pts true).level = p.level) ∧
    (∀ (p : Player) (pts : ℤ) (c : Bool), p.level ≤ 10 →
      (updatePlayerScore p pts c).level ≤ 10) :=
  ⟨fun p pts h1 h2 => updatePlayerScore_crossing p pts h1 h2,
   fun p pts h => updatePlayerScore_below p pts h,
   fun p pts c h => updatePlayerScore_level_le p pts c h⟩

/-- C7 witness: the fifth correct answer takes a level-1 player to
level 2, strictly below the next threshold. -/
theorem levelUp_exactly_once_witness :
    (updatePlayerScore ⟨"Alex (Pre-K)", 5, "Pre-K", 0, 1, 4⟩ 3 true).level = 2 ∧
    (updatePlayerScore ⟨"Alex (Pre-K)", 5, "Pre-K", 0, 1, 4⟩ 3 true).correctAnswers <
      (updatePlayerScore ⟨"Alex (Pre-K)", 5, "Pre-K", 0, 1, 4⟩ 3 true).level * 5 :=
  levelUp_exactly_once.1 ⟨"Alex (Pre-K)", 5, "Pre-K", 0, 1, 4⟩ 3 (by decide)
    (by decide)

/-- C8: evaluation of the failing path.  When `generateProblem` throws
during initialization, the catch block sets the canned options
[4, 6, 8, 10], the image-error flag and `gameInitialized = true` — but
`problem` remains null, so the render guard `!gameInitialized || !problem`
keeps showing the loading screen and the countdown effect never schedules
a tick: the session does NOT reach Active, contradicting the claim.  When
only `generateOptions` throws (problem already set), the session does
leave the loading screen. -/
theorem initFailure_stuck_loading :
    rendersLoading (initGame (mkFreshSession 20 1) InitOutcome.throwInProblem) = true ∧
    (initGame (mkFreshSession 20 1) InitOutcome.throwInProblem).gameInitialized = true ∧
    (initGame (mkFreshSession 20 1) InitOutcome.throwInProblem).options = [4, 6, 8, 10] ∧
    (initGame (mkFreshSession 20 1) InitOutcome.throwInProblem).imageError = true ∧
    (initGame (mkFreshSession 20 1) InitOutcome.throwInProblem).tickPending = false ∧
    rendersLoading (initGame (mkFreshSession 20 1)
      (InitOutcome.throwInOptions ⟨3, 4, 12⟩)) = false := by
  refine ⟨?_, ?_, ?_, ?_, ?_, ?_⟩ <;> decide

set_option maxRecDepth 8000 in
/-- C9 counterexample: the difficulty passed to the mini-games is
`player.level`, and levels climb past 5.  Starting from the default
roster with totalRounds 100 and 50 all-correct completed rounds, the
active player has level 6 and the match is still running, so the next
session receives difficulty 6 ∉ [1,5]. -/
theorem difficulty_exceeds_five :
    difficultyPassed ((fun s => completeRound s 1 true)^[50]
        (startGame 0 defaultPlayers ⟨20, 100, 1⟩ true)) = 6 ∧
    ((fun s => completeRound s 1 true)^[50]
        (startGame 0 defaultPlayers ⟨20, 100, 1⟩ true)).gameState =
      GameState.opposites ∧
    ¬((6 : ℕ) ≤ 5) := by
  refine ⟨?_, ?_, ?_⟩ <;> decide

/-- C9 amended: the difficulty passed to every mini-game equals the
active player's level, which stays in [1,10]: round completions preserve
the level-cap invariant, and under it the difficulty never exceeds 10. -/
theorem difficultyPassed_eq_level :
    (∀ s : AppState, difficultyPassed s = (currentPlayer s).level) ∧
    (∀ (s : AppState) (pts : ℤ) (c : Bool),
      s.players.1.level ≤ 10 → s.players.2.level ≤ 10 →
      (completeRound s pts c).players.1.level ≤ 10 ∧
      (completeRound s pts c).players.2.level ≤ 10) ∧
    (∀ s : AppState, s.players.1.level ≤ 10 → s.players.2.level ≤ 10 →
      difficultyPassed s ≤ 10) := by
  refine ⟨fun s => rfl, ?_, ?_⟩
  · intro s pts c h1 h2
    by_cases hidx : s.currentPlayerIndex = 0
    · simp only [completeRound, applyScoreUpdate, if_pos hidx, nextTurn]
      exact ⟨updatePlayerScore_level_le _ _ _ h1, h2⟩
    · simp only [completeRound, applyScoreUpdate, if_neg hidx, nextTurn]
      exact ⟨h1, updatePlayerScore_level_le _ _ _ h2⟩
  · intro s h1 h2
    unfold difficultyPassed currentPlayer
    split_ifs <;> assumption

/-- C9 amended witness at the freshly started default match. -/
theorem difficultyPassed_eq_level_witness :
    difficultyPassed (startGame 0 defaultPlayers ⟨20, 100, 1⟩ true) ≤ 10 :=
  difficultyPassed_eq_level.2.2 (startGame 0 defaultPlayers ⟨20, 100, 1⟩ true)
    (by decide) (by decide)

/-- C10 counterexample: the game type is chosen only once at
`startGame`; `nextTurn` never re-routes.  With the default roster the
match starts on opposites for the age-5 player, and after one completed
round the active player is the 7-year-old while `gameState` is still
opposites — not a game of that player's age bracket. -/
theorem game_not_rerouted :
    (currentPlayer (completeRound (startGame 0 defaultPlayers ⟨20, 100, 1⟩ true)
      10 true)).age = 7 ∧
    (completeRound (startGame 0 defaultPlayers ⟨20, 100, 1⟩ true) 10 true).gameState =
      GameState.opposites ∧
    (completeRound (startGame 0 defaultPlayers ⟨20, 100, 1⟩ true) 10 true).gameState ∉
      gamesForAge (currentPlayer (completeRound
        (startGame 0 defaultPlayers ⟨20, 100, 1⟩ true) 10 true)).age := by
  refine ⟨?_, ?_, ?_⟩ <;> decide

/-- C10 amended: each round completion swaps `currentPlayerIndex`,
increments `roundsPlayed`, and leaves the mini-game type unchanged while
the match continues; the game type is selected only once, at
`startGame`, within the age bracket of the player at the stale
pre-start index, randomly between that bracket's two games. -/
theorem nextTurn_swaps_and_keeps_game :
    (∀ (s : AppState) (pts : ℤ) (c : Bool),
      (completeRound s pts c).currentPlayerIndex =
        (if s.currentPlayerIndex = 0 then 1 else 0) ∧
      (completeRound s pts c).roundsPlayed = s.roundsPlayed + 1 ∧
      (s.roundsPlayed + 1 < s.settings.totalRounds →
        (completeRound s pts c).gameState = s.gameState)) ∧
    (∀ (prevIndex : ℕ) (ps : Player × Player) (settings : GameSettings) (r : Bool),
      (startGame prevIndex ps settings r).gameState ∈
        gamesForAge (if prevIndex = 0 then ps.1 else ps.2).age) := by
  constructor
  · intro s pts c
    have hns : ¬(s.settings.totalRounds ≤ s.roundsPlayed + 1) →
        (completeRound s pts c).gameState = s.gameState := by
      intro hn
      by_cases hidx : s.currentPlayerIndex = 0 <;>
        simp [completeRound, applyScoreUpdate, nextTurn, hidx, hn]
    refine ⟨?_, ?_, fun hlt => hns (by omega)⟩
    · by_cases hidx : s.currentPlayerIndex = 0 <;>
        simp [completeRound, applyScoreUpdate, nextTurn, hidx]
    · by_cases hidx : s.currentPlayerIndex = 0 <;>
        simp [completeRound, applyScoreUpdate, nextTurn, hidx]
  · intro prevIndex ps settings r
    simp only [startGame, selectGameForPlayer, gamesForAge]
    by_cases hage : (if prevIndex = 0 then ps.1 else ps.2).age < 6
    · rw [if_pos hage, if_pos hage]
      cases r <;> simp
    · rw [if_neg hage, if_neg hage]
      cases r <;> simp

/-- C10 amended witness: one completed round of the default match swaps
the index to 1 and keeps the game type. -/
theorem nextTurn_swaps_and_keeps_game_witness :
    (completeRound (startGame 0 defaultPlayers ⟨20, 100, 1⟩ true) 1 true).currentPlayerIndex =
      (if (startGame 0 defaultPlayers ⟨20, 100, 1⟩ true).currentPlayerIndex = 0
        then 1 else 0) ∧
    (completeRound (startGame 0 defaultPlayers ⟨20, 100, 1⟩ true) 1 true).gameState =
      (startGame 0 defaultPlayers ⟨20, 100, 1⟩ true).gameState :=
  ⟨(nextTurn_swaps_and_keeps_game.1 (startGame 0 defaultPlayers ⟨20, 100, 1⟩ true)
      1 true).1,
   (nextTurn_swaps_and_keeps_game.1 (startGame 0 defaultPlayers ⟨20, 100, 1⟩ true)
      1 true).2.2 (by decide)⟩

end DaddysPlayground
